import Mathlib

/-!
# Client-side validation of the print-request form

A shallow embedding of `app/static/js/form-validation.js` (and of `updateTotal`
from `app/static/js/main.js`), followed by theorems about it.

Conventions of the embedding.

* JavaScript strings are `String`; the string operations of the host that the
  code calls (`split`, `pop`, `includes`, `join`, `parseInt`, `toFixed`,
  number-to-string conversion) are written out from ECMA-262.
* `String.prototype.toLowerCase` depends on the Unicode case tables of the host,
  which are not part of the repository: it is a parameter of the functions that
  call it, and every theorem holds for every choice of it.  `asciiToLowerCase`
  agrees with it on strings of ASCII characters and is used for evaluation.
* JavaScript numbers are `JSNumber`: `NaN`, the two infinities, and the doubles
  whose value is an integer, held as that integer (`-0` is not kept apart from
  `0`: no test or text of the code tells them apart).  `roundToDouble` is the
  rounding to the nearest double, ties to the even significand, that `parseInt`,
  numeric literals and the product of two numbers go through, and
  `JSNumber.toString` is the number-to-string conversion of a template literal.
  Numbers that are not integers do not occur: every call site passes integer
  literals as bounds.
* The size limit of `validateFileUpload` is an `Int`, printed with all its
  digits, and a byte count is a `Nat`; the quotient `file.size / (1024 * 1024)`
  is a rational number: dividing an integer below `2^53` by a power of two is
  exact in binary floating point.
-/

namespace PrintRequest

/-! ## Data model -/

/-- A selected file, as far as the validation reads it: `file.name`, `file.size`. -/
structure File where
  name : String
  size : Nat
  deriving DecidableEq, Repr

/-- A file input element: its `files` list. -/
structure FileInput where
  files : List File
  deriving DecidableEq, Repr

/-- A text or number input element: its `value`. -/
structure Input where
  value : String
  deriving DecidableEq, Repr

/-- The object `{ valid, message }` returned by the single-field checks. -/
structure ValidationResult where
  valid : Bool
  message : String
  deriving DecidableEq, Repr

/-! ## Host string operations -/

/-- Lower-casing of the ASCII letters, every other character kept. -/
def asciiToLowerCase (s : String) : String :=
  String.mk (s.data.map Char.toLower)

/-- `s.split(sep)` for a separator of one character: the pieces between the
occurrences of `sep`, never an empty array. -/
def split (s : String) (sep : Char) : List String :=
  (s.data.splitOn sep).map String.mk

/-- `xs.pop()`: the last element, `undefined` (`none`) for an empty array. -/
def pop (xs : List String) : Option String :=
  xs.getLast?

/-- `xs.includes(x)` for an array of strings: `undefined` is never a member. -/
def includes (xs : List String) (x : Option String) : Bool :=
  match x with
  | some s => xs.contains s
  | none => false

/-- `xs.join(sep)`. -/
def join (xs : List String) (sep : String) : String :=
  sep.intercalate xs

/-- The size limit of `validateFileUpload` in a template literal: all the digits
of the integer, which is what number-to-string conversion gives for an integer
of magnitude up to `2^53`. -/
def numberToString (n : Int) : String :=
  toString n

/-- `x.toFixed(1)`: with `n` the integer for which `n / 10 - |x|` is closest to
zero (the larger one when there are two), the digits of `n` with a point before
the last one, after a minus sign when `x < 0`. -/
def toFixed1 (x : ℚ) : String :=
  let a : ℚ := if x < 0 then -x else x
  let n : Nat := ⌊a * 10 + 1 / 2⌋.toNat
  (if x < 0 then "-" else "") ++ toString (n / 10) ++ "." ++ toString (n % 10)

/-! ## `validateFileUpload` -/

/-- `validateFileUpload(fileInput, allowedExtensions, maxSizeMB)`. -/
def validateFileUpload (toLowerCase : String → String) (fileInput : FileInput)
    (allowedExtensions : List String) (maxSizeMB : Int) : ValidationResult :=
  match fileInput.files.head? with
  | none => ⟨false, "Please select a file"⟩
  | some file =>
    let fileName := toLowerCase file.name
    let fileExt := pop (split fileName '.')
    if !includes allowedExtensions fileExt then
      ⟨false, "Invalid file type. Allowed: " ++ join allowedExtensions ", "⟩
    else
      let fileSizeMB : ℚ := (file.size : ℚ) / (1024 * 1024)
      if fileSizeMB > (maxSizeMB : ℚ) then
        ⟨false, "File size (" ++ toFixed1 fileSizeMB ++ "MB) exceeds " ++
          numberToString maxSizeMB ++ "MB limit"⟩
      else
        ⟨true, "File is valid"⟩

/-! ## Numbers -/

/-- A JavaScript number, as far as one occurs here: `NaN`, a double whose value
is an integer, or an infinity. -/
inductive JSNumber where
  | nan
  | finite (value : Int)
  | infinity (negative : Bool)
  deriving DecidableEq, Repr

/-- The number of binary digits of `n`, counted with `fuel` halvings. -/
def bitLengthAux : Nat → Nat → Nat
  | 0, _ => 0
  | fuel + 1, n => if n = 0 then 0 else bitLengthAux fuel (n / 2) + 1

/-- The number of binary digits of `n`: the least `b` with `n < 2 ^ b`. -/
def bitLength (n : Nat) : Nat :=
  bitLengthAux n n

/-- The double nearest to the integer `n`, the one with the even significand at
a tie, and an infinity from `2^1024 - 2^970` on.  An integer of magnitude below
`2^53` is a double; a larger one keeps its 53 leading binary digits, rounded. -/
def roundToDouble (n : Int) : JSNumber :=
  let a := n.natAbs
  if a < 2 ^ 53 then JSNumber.finite n
  else
    let shift := bitLength a - 53
    let q := a / 2 ^ shift
    let r := a % 2 ^ shift
    let half := 2 ^ (shift - 1)
    let m := if r > half ∨ (r = half ∧ q % 2 = 1) then q + 1 else q
    let v := m * 2 ^ shift
    if bitLength v > 1024 then JSNumber.infinity (decide (n < 0))
    else JSNumber.finite (if n < 0 then -(v : Int) else (v : Int))

/-- A numeric literal denotes the double nearest to it. -/
instance (n : Nat) : OfNat JSNumber n :=
  ⟨roundToDouble (n : Int)⟩

/-- `isNaN(x)`. -/
def isNaN (x : JSNumber) : Bool :=
  match x with
  | JSNumber.nan => true
  | _ => false

/-- The comparison `x < y` of two numbers: false when either is `NaN`. -/
def JSNumber.lt : JSNumber → JSNumber → Bool
  | JSNumber.finite a, JSNumber.finite b => decide (a < b)
  | JSNumber.finite _, JSNumber.infinity negative => !negative
  | JSNumber.infinity negative, JSNumber.finite _ => negative
  | JSNumber.infinity a, JSNumber.infinity b => a && !b
  | _, _ => false

instance : LT JSNumber :=
  ⟨fun x y => JSNumber.lt x y = true⟩

instance (x y : JSNumber) : Decidable (x < y) :=
  inferInstanceAs (Decidable (JSNumber.lt x y = true))

/-- The product `x * y` of two numbers: `NaN` when either is `NaN` and for zero
times an infinity, otherwise the exact product rounded to a double. -/
def JSNumber.mul : JSNumber → JSNumber → JSNumber
  | JSNumber.nan, _ => JSNumber.nan
  | _, JSNumber.nan => JSNumber.nan
  | JSNumber.finite a, JSNumber.finite b => roundToDouble (a * b)
  | JSNumber.finite a, JSNumber.infinity negative =>
    if a = 0 then JSNumber.nan else JSNumber.infinity (xor (decide (a < 0)) negative)
  | JSNumber.infinity negative, JSNumber.finite b =>
    if b = 0 then JSNumber.nan else JSNumber.infinity (xor negative (decide (b < 0)))
  | JSNumber.infinity a, JSNumber.infinity b => JSNumber.infinity (xor a b)

instance : Mul JSNumber :=
  ⟨JSNumber.mul⟩

/-- A candidate for the `k` leading digits of the positive integer `x` of `n`
decimal digits: the `k`-digit number `s` nearest to `x / 10 ^ (n - k)` (the even
one at a tie) among those for which `s * 10 ^ (n - k)` rounds to `x`. -/
def digitsAt (x n k : Nat) : Option Nat :=
  let p := 10 ^ (n - k)
  let s0 := x / p
  let fits := fun s : Nat =>
    decide (s < 10 ^ k) && decide (roundToDouble ((s * p : Nat) : Int) = JSNumber.finite (x : Int))
  let lo := fits s0
  let hi := fits (s0 + 1)
  if lo && hi then
    let dlo := x - s0 * p
    let dhi := (s0 + 1) * p - x
    if dlo < dhi then some s0
    else if dhi < dlo then some (s0 + 1)
    else if s0 % 2 = 0 then some s0 else some (s0 + 1)
  else if lo then some s0
  else if hi then some (s0 + 1)
  else none

/-- The integers `s`, `k` and `n` of `Number::toString` for a positive
integer-valued double `x`: `s` has `k` digits, `s * 10 ^ (n - k)` rounds to `x`,
and `k` is as small as possible. -/
def shortestDigits (x : Nat) : Nat × Nat × Nat :=
  let n := (Nat.toDigits 10 x).length
  if roundToDouble ((10 ^ n : Nat) : Int) = JSNumber.finite (x : Int) then (1, 1, n + 1)
  else
    match (List.range n).findSome? fun i => (digitsAt x n (i + 1)).map fun s => (s, i + 1) with
    | some (s, k) => (s, k, n)
    | none => (x, n, n)

/-- `Number::toString` for a positive integer-valued double: the digits of `s`
followed by `n - k` zeros up to 21 digits, and exponent form beyond. -/
def positiveToString (x : Nat) : String :=
  let (s, k, n) := shortestDigits x
  let digits := Nat.toDigits 10 s
  if n ≤ 21 then String.mk (digits ++ List.replicate (n - k) '0')
  else if k = 1 then String.mk digits ++ "e+" ++ toString (n - 1)
  else String.mk (digits.take 1) ++ "." ++ String.mk (digits.drop 1) ++ "e+" ++ toString (n - 1)

/-- Number-to-string conversion, as a template literal performs it. -/
def JSNumber.toString : JSNumber → String
  | JSNumber.nan => "NaN"
  | JSNumber.infinity false => "Infinity"
  | JSNumber.infinity true => "-Infinity"
  | JSNumber.finite v =>
    if v = 0 then "0"
    else (if v < 0 then "-" else "") ++ positiveToString v.natAbs

/-! ## `parseInt` and `validateNumberRange` -/

/-- The code points that `parseInt` skips in front of the number: the
`WhiteSpace` and `LineTerminator` productions of ECMA-262. -/
def isWhiteSpace (c : Char) : Bool :=
  [0x9, 0xA, 0xB, 0xC, 0xD, 0x20, 0xA0, 0x1680, 0x2000, 0x2001, 0x2002, 0x2003, 0x2004,
    0x2005, 0x2006, 0x2007, 0x2008, 0x2009, 0x200A, 0x2028, 0x2029, 0x202F, 0x205F,
    0x3000, 0xFEFF].contains c.toNat

/-- The value of a character as a digit: `0`-`9`, then `a`-`z` and `A`-`Z` for
ten to thirty-five. -/
def digitValue (c : Char) : Option Nat :=
  if 48 ≤ c.toNat ∧ c.toNat ≤ 57 then some (c.toNat - 48)
  else if 97 ≤ c.toNat ∧ c.toNat ≤ 122 then some (c.toNat - 97 + 10)
  else if 65 ≤ c.toNat ∧ c.toNat ≤ 90 then some (c.toNat - 65 + 10)
  else none

/-- Whether `c` is a digit of radix `R`. -/
def isRadixDigit (R : Nat) (c : Char) : Bool :=
  match digitValue c with
  | some d => decide (d < R)
  | none => false

/-- The integer that the digit string `Z` represents in radix `R`. -/
def mathInt (R : Nat) (Z : List Char) : Nat :=
  Z.foldl (fun acc c => acc * R + (digitValue c).getD 0) 0

/-- The sign that `parseInt` reads: `-1` when the text starts with `-`. -/
def signOf (S : List Char) : Int :=
  if S.head? = some '-' then -1 else 1

/-- The text without its leading `+` or `-`, if it has one. -/
def dropSign : List Char → List Char
  | '+' :: rest => rest
  | '-' :: rest => rest
  | S => S

/-- The radix and the text to read digits from: radix 16 after a leading `0x`
or `0X`, which is removed, and radix 10 otherwise. -/
def radixAndDigits : List Char → Nat × List Char
  | '0' :: 'x' :: rest => (16, rest)
  | '0' :: 'X' :: rest => (16, rest)
  | S => (10, S)

/-- The unsigned number at the start of `S`: the longest run of digits of the
radix, `none` when the run is empty. -/
def parseMagnitude (S : List Char) : Option Nat :=
  let RS := radixAndDigits S
  let Z := RS.2.takeWhile (isRadixDigit RS.1)
  if Z.isEmpty then none else some (mathInt RS.1 Z)

/-- `parseInt(string)` with no radix argument.  Leading white space is dropped,
then one sign, then a `0x` or `0X` marker; the longest run of digits of the
radix is the number, read exactly and rounded to a double, and an empty run
gives `NaN`. -/
def parseInt (string : String) : JSNumber :=
  let S := string.data.dropWhile isWhiteSpace
  let sign := signOf S
  let S := dropSign S
  match parseMagnitude S with
  | none => JSNumber.nan
  | some m => roundToDouble (sign * (m : Int))

/-- `validateNumberRange(input, min, max)`. -/
def validateNumberRange (input : Input) (min max : JSNumber) : ValidationResult :=
  let value := parseInt input.value
  if isNaN value then
    ⟨false, "Please enter a valid number"⟩
  else if value < min then
    ⟨false, "Value must be at least " ++ min.toString⟩
  else if value > max then
    ⟨false, "Value must not exceed " ++ max.toString⟩
  else
    ⟨true, "Valid"⟩

/-! ## `validatePrintRequestForm` -/

/-- What `validatePrintRequestForm` looks up in the form: the first element
matching each of its three selectors, `none` when `querySelector` gives `null`. -/
structure Form where
  file : Option FileInput
  number_of_pages : Option Input
  number_of_copies : Option Input
  deriving DecidableEq, Repr

/-- The object `{ valid, errors }` returned by `validatePrintRequestForm`. -/
structure FormValidation where
  valid : Bool
  errors : List String
  deriving DecidableEq, Repr

/-- `validatePrintRequestForm(form)`: the returned object.  The calls of
`showFieldError` and `clearFieldError` only decorate the page and do not
touch `isValid` or `errors`. -/
def validatePrintRequestForm (toLowerCase : String → String) (form : Form) :
    FormValidation :=
  let isValid := true
  let errors : List String := []
  let (isValid, errors) :=
    match form.file with
    | some fileInput =>
      let fileValidation := validateFileUpload toLowerCase fileInput ["pdf", "doc", "docx"] 50
      if !fileValidation.valid then (false, errors ++ [fileValidation.message])
      else (isValid, errors)
    | none => (isValid, errors)
  let (isValid, errors) :=
    match form.number_of_pages with
    | some pagesInput =>
      let pagesValidation := validateNumberRange pagesInput 1 1000
      if !pagesValidation.valid then (false, errors ++ [pagesValidation.message])
      else (isValid, errors)
    | none => (isValid, errors)
  let (isValid, errors) :=
    match form.number_of_copies with
    | some copiesInput =>
      let copiesValidation := validateNumberRange copiesInput 1 100
      if !copiesValidation.valid then (false, errors ++ [copiesValidation.message])
      else (isValid, errors)
    | none => (isValid, errors)
  ⟨isValid, errors⟩

/-! ## Total pages -/

/-- The children of the total display: the markup of the page, of which only the
text of the first `strong` descendant is read (`none` when there is none), or
the single text node left by an assignment to `textContent`. -/
inductive Content where
  | markup (strong : Option String)
  | text (s : String)
  deriving DecidableEq, Repr

/-- The element `.total-pages-display`: `style.display` and its children. -/
structure Display where
  display : String
  content : Content
  deriving DecidableEq, Repr

/-- The expression `x || 0` for a number `x`: `NaN` and zero are falsy. -/
def orZero (x : JSNumber) : JSNumber :=
  match x with
  | JSNumber.nan => 0
  | JSNumber.finite v => if v = 0 then 0 else JSNumber.finite v
  | JSNumber.infinity negative => JSNumber.infinity negative

/-- `calculateTotalPages(pagesInput, copiesInput, displayElement)`: the display
element after the call (`none` for a `null` element).  The assignment to
`textContent` replaces the children of the element by one text node. -/
def calculateTotalPages (pagesInput copiesInput : Input) (displayElement : Option Display) :
    Option Display :=
  let pages := orZero (parseInt pagesInput.value)
  let copies := orZero (parseInt copiesInput.value)
  let total := pages * copies
  match displayElement with
  | some el =>
    if total > 0 then
      some ⟨"block", Content.text ("Total pages to print: " ++ total.toString)⟩
    else some el
  | none => none

/-- `updateTotal()` of `main.js`, for the inputs and the display it closes over:
the display after the call, `none` when the call throws because the display has
no `strong` descendant to write to. -/
def updateTotal (pagesInput copiesInput : Input) (totalDisplay : Display) : Option Display :=
  let pages := orZero (parseInt pagesInput.value)
  let copies := orZero (parseInt copiesInput.value)
  let total := pages * copies
  if total > 0 then
    match totalDisplay.content with
    | Content.markup (some _) =>
      some ⟨"block", Content.markup (some total.toString)⟩
    | _ => none
  else
    some ⟨"none", totalDisplay.content⟩

/-! ## The `change` handler of the file input -/

/-- What the `change` handler of `main.js` leaves behind, as far as the
validation can see it: the `files` of the input afterwards, and the text and
kind of the notification it shows, if it shows one. -/
structure ChangeOutcome where
  files : List File
  shown : Option (String × String)
  deriving DecidableEq, Repr

/-- The `change` listener on the file input in `main.js`.  More than `maxFiles`
files are cut down to the first `maxFiles`, with an error notification; one to
`maxFiles` files are kept as they are and reported as uploaded; the markup
written into the page is left out. -/
def fileInputChange (fileInput : FileInput) : ChangeOutcome :=
  let files := fileInput.files
  let maxFiles : Nat := 10
  if files.length > maxFiles then
    let dt := (List.range maxFiles).filterMap fun i => files[i]?
    ⟨dt, some ("Maximum " ++ toString maxFiles ++ " files allowed. Only first " ++
      toString maxFiles ++ " will be uploaded.", "error")⟩
  else if files.length > 0 then
    ⟨files, some (toString files.length ++ " file" ++
      (if files.length > 1 then "s" else "") ++ " uploaded successfully!", "success")⟩
  else
    ⟨files, none⟩

/-! ## The aggregate in the words of the specification -/

/-- The validity that a field contributes: that of its check when the field is
present, nothing to object to when it is absent. -/
def fieldValid (check : Option ValidationResult) : Bool :=
  match check with
  | some r => r.valid
  | none => true

/-- The messages that a field contributes: the message of its check when the
field is present and the check fails, none otherwise. -/
def fieldErrors (check : Option ValidationResult) : List String :=
  match check with
  | some r => if r.valid then [] else [r.message]
  | none => []

/-- A decimal digit, `0` to `9`. -/
def isDecimalDigit (c : Char) : Bool :=
  decide (48 ≤ c.toNat ∧ c.toNat ≤ 57)

/-- After leading white space and an optional sign the text starts with a
decimal digit. -/
def startsWithNumber (s : String) : Bool :=
  match dropSign (s.data.dropWhile isWhiteSpace) with
  | c :: _ => isDecimalDigit c
  | [] => false

/-- A number that a double can hold: a `finite v` stands for a number of the
program exactly when rounding leaves `v` as it is. -/
def JSNumber.isDouble (x : JSNumber) : Bool :=
  match x with
  | JSNumber.finite v => decide (roundToDouble v = JSNumber.finite v)
  | _ => true

/-! ## Lemmas on the host operations -/

/-- Splitting at a separator that occurs: the last piece is what follows the
last occurrence, and there is at least one piece before it. -/
theorem splitOn_append_sep (sep : Char) (suf : List Char) (hsuf : sep ∉ suf) :
    ∀ pre : List Char, ∃ init : List (List Char), init ≠ [] ∧
      (pre ++ sep :: suf).splitOn sep = init ++ [suf] := by
  have hsingle : suf.splitOnP (fun x => x == sep) = [suf] :=
    List.splitOnP_eq_single _ _ (fun x hx => by
      have : x ≠ sep := fun h => hsuf (h ▸ hx)
      simpa using this)
  intro pre
  induction pre with
  | nil =>
    refine ⟨[[]], by simp, ?_⟩
    show (sep :: suf).splitOnP (fun x => x == sep) = [[]] ++ [suf]
    rw [List.splitOnP_cons, hsingle]
    simp
  | cons x pre ih =>
    obtain ⟨init, hne, hinit⟩ := ih
    have hinit2 : (pre ++ sep :: suf).splitOnP (fun x => x == sep) = init ++ [suf] := hinit
    have hcons : (x :: pre ++ sep :: suf).splitOn sep =
        if (x == sep) = true then [] :: (init ++ [suf])
        else (init ++ [suf]).modifyHead (List.cons x) := by
      show (x :: (pre ++ sep :: suf)).splitOnP (fun x => x == sep) = _
      rw [List.splitOnP_cons, hinit2]
    by_cases hx : (x == sep) = true
    · exact ⟨[] :: init, by simp, by rw [hcons, if_pos hx]; simp⟩
    · cases init with
      | nil => exact absurd rfl hne
      | cons a t =>
        exact ⟨(x :: a) :: t, by simp, by rw [hcons, if_neg hx]; simp [List.modifyHead]⟩

/-- The extension is the text after the last `.` of the name. -/
theorem pop_split_after_dot (stem ext : String) (hdot : '.' ∉ ext.data) :
    pop (split (stem ++ "." ++ ext) '.') = some ext := by
  obtain ⟨init, _, hinit⟩ := splitOn_append_sep '.' ext.data hdot stem.data
  have hdata : (stem ++ "." ++ ext).data = stem.data ++ '.' :: ext.data := by
    simp [String.data_append]
  simp [pop, split, hdata, hinit]

/-- With no `.` in the name the only piece, and so the extension, is the whole
name. -/
theorem pop_split_no_dot (name : String) (hdot : '.' ∉ name.data) :
    pop (split name '.') = some name := by
  have hsingle : name.data.splitOn '.' = [name.data] :=
    List.splitOnP_eq_single _ _ (fun x hx => by
      have : x ≠ '.' := fun h => hdot (h ▸ hx)
      simpa using this)
  simp [pop, split, hsingle]

/-- The size test of `validateFileUpload`, in whole bytes. -/
theorem fileSizeMB_gt_iff (size : Nat) (maxSizeMB : Int) :
    ((size : ℚ) / (1024 * 1024) > (maxSizeMB : ℚ)) ↔ maxSizeMB * 1024 * 1024 < (size : Int) := by
  rw [gt_iff_lt, lt_div_iff₀ (by norm_num)]
  constructor
  · intro h
    have h2 : ((maxSizeMB * 1024 * 1024 : Int) : ℚ) < ((size : Int) : ℚ) := by
      push_cast; linarith
    exact_mod_cast h2
  · intro h
    have h2 : ((maxSizeMB * 1024 * 1024 : Int) : ℚ) < ((size : Int) : ℚ) := by
      exact_mod_cast h
    push_cast at h2; linarith

/-- A decimal digit is not white space. -/
theorem isWhiteSpace_of_digit (c : Char) (h : isDecimalDigit c = true) :
    isWhiteSpace c = false := by
  simp only [isDecimalDigit, decide_eq_true_eq] at h
  simp only [isWhiteSpace, List.contains, List.elem, Bool.cond_eq_ite]
  have e : ∀ k : Nat, k < 48 ∨ 57 < k → (c.toNat == k) = false := by
    intro k hk
    simp only [beq_eq_false_iff_ne, ne_eq]
    omega
  simp [e]

/-- A decimal digit is a digit of radix 10. -/
theorem isRadixDigit_of_digit (c : Char) (h : isDecimalDigit c = true) :
    isRadixDigit 10 c = true := by
  simp only [isDecimalDigit, decide_eq_true_eq] at h
  simp only [isRadixDigit, digitValue, h, and_self, if_true, decide_eq_true_eq]
  omega

/-- Nothing but a decimal digit is a digit of radix 10. -/
theorem isRadixDigit_of_not_digit (c : Char) (h : isDecimalDigit c = false) :
    isRadixDigit 10 c = false := by
  simp only [isDecimalDigit, decide_eq_false_iff_not] at h
  simp only [isRadixDigit, digitValue, if_neg h]
  split_ifs <;> simp

/-- Text that starts with a decimal digit has no sign to drop. -/
theorem dropSign_of_digit (c : Char) (tl : List Char) (h : isDecimalDigit c = true) :
    dropSign (c :: tl) = c :: tl := by
  unfold dropSign
  split
  · rename_i heq; injection heq with h1 _; subst h1; exact absurd h (by decide)
  · rename_i heq; injection heq with h1 _; subst h1; exact absurd h (by decide)
  · rfl

/-- Text that starts with a decimal digit has sign `1`. -/
theorem signOf_of_digit (c : Char) (tl : List Char) (h : isDecimalDigit c = true) :
    signOf (c :: tl) = 1 := by
  have : c ≠ '-' := by rintro rfl; exact absurd h (by decide)
  simp [signOf, this]

/-- A run of decimal digits reads in radix 10, up to the first character that
is not a decimal digit, unless the run is `0` and an `x` or `X` follows it. -/
theorem parseMagnitude_digits (d t : List Char) (hne : d ≠ [])
    (hd : ∀ c ∈ d, isDecimalDigit c = true)
    (ht : ∀ c tl, t = c :: tl → isDecimalDigit c = false)
    (hhex : ¬ (d = ['0'] ∧ ∃ c tl, t = c :: tl ∧ (c = 'x' ∨ c = 'X'))) :
    parseMagnitude (d ++ t) = some (mathInt 10 d) := by
  have hrad : radixAndDigits (d ++ t) = (10, d ++ t) := by
    unfold radixAndDigits
    split
    · rename_i rest heq
      exfalso
      cases d with
      | nil => exact hne rfl
      | cons a d1 =>
        cases d1 with
        | nil =>
          simp only [List.cons_append, List.nil_append, List.cons.injEq] at heq
          exact hhex ⟨by rw [heq.1], 'x', rest, heq.2, Or.inl rfl⟩
        | cons b d2 =>
          simp only [List.cons_append, List.cons.injEq] at heq
          have := hd b (by simp)
          rw [heq.2.1] at this
          exact absurd this (by decide)
    · rename_i rest heq
      exfalso
      cases d with
      | nil => exact hne rfl
      | cons a d1 =>
        cases d1 with
        | nil =>
          simp only [List.cons_append, List.nil_append, List.cons.injEq] at heq
          exact hhex ⟨by rw [heq.1], 'X', rest, heq.2, Or.inr rfl⟩
        | cons b d2 =>
          simp only [List.cons_append, List.cons.injEq] at heq
          have := hd b (by simp)
          rw [heq.2.1] at this
          exact absurd this (by decide)
    · rfl
  have htake : (d ++ t).takeWhile (isRadixDigit 10) = d := by
    rw [List.takeWhile_append_of_pos (fun a ha => isRadixDigit_of_digit a (hd a ha))]
    cases t with
    | nil => simp
    | cons c tl =>
      have := isRadixDigit_of_not_digit c (ht c tl rfl)
      simp [this]
  simp only [parseMagnitude, hrad, htake]
  cases d with
  | nil => exact absurd rfl hne
  | cons a d1 => simp

/-- The same for `parseInt`: an unsigned run of decimal digits reads as its
value in radix 10. -/
theorem parseInt_digits (d t : List Char) (hne : d ≠ [])
    (hd : ∀ c ∈ d, isDecimalDigit c = true)
    (ht : ∀ c tl, t = c :: tl → isDecimalDigit c = false)
    (hhex : ¬ (d = ['0'] ∧ ∃ c tl, t = c :: tl ∧ (c = 'x' ∨ c = 'X'))) :
    parseInt (String.mk (d ++ t)) = roundToDouble ((mathInt 10 d : Nat) : Int) := by
  have hmag := parseMagnitude_digits d t hne hd ht hhex
  cases d with
  | nil => exact absurd rfl hne
  | cons a d1 =>
    have ha : isDecimalDigit a = true := hd a (by simp)
    have hws : isWhiteSpace a = false := isWhiteSpace_of_digit a ha
    have hdrop : List.dropWhile isWhiteSpace (a :: d1 ++ t) = a :: d1 ++ t := by
      simp [List.dropWhile, hws]
    simp only [parseInt, hdrop]
    rw [show a :: d1 ++ t = a :: (d1 ++ t) from rfl, dropSign_of_digit a _ ha,
      signOf_of_digit a _ ha]
    rw [show a :: (d1 ++ t) = a :: d1 ++ t from rfl, hmag]
    simp

/-- The character printed for a digit below ten is a decimal digit with that
value. -/
theorem digitChar_spec :
    ∀ m : Nat, m < 10 →
      isDecimalDigit (Nat.digitChar m) = true ∧ digitValue (Nat.digitChar m) = some m := by
  decide

/-- One more digit at the end: the value so far times the radix, plus the digit. -/
theorem mathInt_snoc (R : Nat) (Z : List Char) (c : Char) :
    mathInt R (Z ++ [c]) = mathInt R Z * R + (digitValue c).getD 0 := by
  simp [mathInt, List.foldl_append]

/-- The digits that number printing produces, with enough fuel: a non-empty
run of decimal digits in front of the accumulator, whose value is the number. -/
theorem toDigitsCore_decimal (fuel : Nat) :
    ∀ (n : Nat) (acc : List Char), n < fuel →
      ∃ L : List Char, Nat.toDigitsCore 10 fuel n acc = L ++ acc ∧ L ≠ [] ∧
        (∀ c ∈ L, isDecimalDigit c = true) ∧ mathInt 10 L = n := by
  induction fuel with
  | zero => intro n acc h; omega
  | succ fuel ih =>
    intro n acc hn
    have hlast := digitChar_spec (n % 10) (Nat.mod_lt _ (by norm_num))
    by_cases hq : n / 10 = 0
    · refine ⟨[Nat.digitChar (n % 10)], by simp [Nat.toDigitsCore, hq], by simp, ?_, ?_⟩
      · intro c hc
        rw [List.mem_singleton.mp hc]; exact hlast.1
      · have : mathInt 10 ([] ++ [Nat.digitChar (n % 10)]) = n := by
          rw [mathInt_snoc, hlast.2]
          simp only [mathInt, List.foldl_nil, Option.getD_some]
          omega
        simpa using this
    · obtain ⟨L, hL, _, hdig, hval⟩ :=
        ih (n / 10) (Nat.digitChar (n % 10) :: acc) (by omega)
      refine ⟨L ++ [Nat.digitChar (n % 10)], by simp [Nat.toDigitsCore, hq, hL], by simp, ?_, ?_⟩
      · intro c hc
        rcases List.mem_append.mp hc with h | h
        · exact hdig c h
        · rw [List.mem_singleton.mp h]; exact hlast.1
      · rw [mathInt_snoc, hval, hlast.2]
        simp only [Option.getD_some]
        omega

/-- The decimal text of a natural number is a non-empty run of decimal digits
with that value. -/
theorem repr_decimal (n : Nat) :
    ∃ L : List Char, toString n = String.mk L ∧ L ≠ [] ∧
      (∀ c ∈ L, isDecimalDigit c = true) ∧ mathInt 10 L = n := by
  obtain ⟨L, hL, hne, hdig, hval⟩ := toDigitsCore_decimal (n + 1) n [] (by omega)
  refine ⟨L, ?_, hne, hdig, hval⟩
  show Nat.repr n = String.mk L
  simp [Nat.repr, Nat.toDigits, hL, List.asString]

/-- Reading back the decimal text of an integer gives the double nearest to the
integer. -/
theorem parseInt_toString (v : Int) : parseInt (toString v) = roundToDouble v := by
  cases v with
  | ofNat n =>
    obtain ⟨L, hL, hne, hdig, hval⟩ := repr_decimal n
    have h := parseInt_digits L [] hne hdig (by simp) (by simp)
    have e : toString (Int.ofNat n) = String.mk (L ++ []) := by
      rw [List.append_nil, ← hL]; rfl
    rw [e, h, hval]; rfl
  | negSucc n =>
    obtain ⟨L, hL, hne, hdig, hval⟩ := repr_decimal (n + 1)
    have hmag := parseMagnitude_digits L [] hne hdig (by simp) (by simp)
    rw [List.append_nil] at hmag
    have e : toString (Int.negSucc n) = String.mk ('-' :: L) := by
      show "-" ++ toString (n + 1) = _
      rw [hL]; rfl
    have hd : List.dropWhile isWhiteSpace ('-' :: L) = '-' :: L := by
      simp [List.dropWhile, show isWhiteSpace '-' = false from by decide]
    simp only [e, parseInt, hd, signOf, dropSign, List.head?_cons, if_true, hmag, hval]
    congr 1
    rw [Int.negSucc_eq]
    push_cast
    ring

/-- Text that does not start with a number does not parse. -/
theorem parseInt_of_not_startsWithNumber (s : String) (h : startsWithNumber s = false) :
    parseInt s = JSNumber.nan := by
  have hmag : parseMagnitude (dropSign (s.data.dropWhile isWhiteSpace)) = none := by
    unfold startsWithNumber at h
    cases hS : dropSign (s.data.dropWhile isWhiteSpace) with
    | nil => decide
    | cons c tl =>
      rw [hS] at h
      simp only at h
      have hc0 : c ≠ '0' := by rintro rfl; exact absurd h (by decide)
      have hrad : radixAndDigits (c :: tl) = (10, c :: tl) := by
        unfold radixAndDigits
        split
        · rename_i heq; injection heq with h1 _; exact absurd h1 hc0
        · rename_i heq; injection heq with h1 _; exact absurd h1 hc0
        · rfl
      simp [parseMagnitude, hrad, isRadixDigit_of_not_digit c h]
  simp only [parseInt, hmag]

/-- After a `0x` or `0X` marker `parseInt` reads the longest run of hexadecimal
digits, rounded to a double, and gives `NaN` when there is none. -/
theorem parseInt_hex (c : Char) (rest : List Char) (hc : c = 'x' ∨ c = 'X') :
    parseInt (String.mk ('0' :: c :: rest)) =
      if (rest.takeWhile (isRadixDigit 16)).isEmpty then JSNumber.nan
      else roundToDouble ((mathInt 16 (rest.takeWhile (isRadixDigit 16)) : Nat) : Int) := by
  have hdrop : List.dropWhile isWhiteSpace ('0' :: c :: rest) = '0' :: c :: rest := by
    simp [List.dropWhile, show isWhiteSpace '0' = false from by decide]
  have hrad : radixAndDigits ('0' :: c :: rest) = (16, rest) := by
    rcases hc with rfl | rfl <;> rfl
  simp only [parseInt, hdrop, dropSign_of_digit '0' _ (by decide),
    signOf_of_digit '0' _ (by decide), parseMagnitude, hrad]
  by_cases hZ : (rest.takeWhile (isRadixDigit 16)).isEmpty = true
  · simp [hZ]
  · simp [hZ]

/-! ## Lemmas on numbers -/

theorem bitLengthAux_zero (fuel : Nat) : bitLengthAux fuel 0 = 0 := by
  cases fuel <;> simp [bitLengthAux]

/-- With enough fuel the count is the number of binary digits. -/
theorem bitLengthAux_spec (fuel : Nat) :
    ∀ n : Nat, n ≤ fuel → n ≠ 0 →
      2 ^ (bitLengthAux fuel n - 1) ≤ n ∧ n < 2 ^ bitLengthAux fuel n := by
  induction fuel with
  | zero => intro n h h0; omega
  | succ fuel ih =>
    intro n hn h0
    simp only [bitLengthAux, h0, if_false]
    by_cases h2 : n / 2 = 0
    · rw [h2, bitLengthAux_zero]
      simp only [Nat.zero_add, Nat.sub_self, pow_zero, pow_one]
      omega
    · obtain ⟨hlo, hhi⟩ := ih (n / 2) (by omega) h2
      have hb : bitLengthAux fuel (n / 2) ≠ 0 := by
        intro hb
        rw [hb] at hhi
        simp at hhi
        exact h2 hhi
      obtain ⟨b, hbe⟩ := Nat.exists_eq_succ_of_ne_zero hb
      rw [hbe] at hlo hhi ⊢
      simp only [Nat.succ_eq_add_one, Nat.add_sub_cancel] at hlo hhi ⊢
      rw [pow_succ] at hhi ⊢
      rw [pow_succ (2 : Nat) (b + 1), pow_succ (2 : Nat) b]
      omega

/-- The binary digits of a positive number. -/
theorem bitLength_spec (n : Nat) (h : n ≠ 0) :
    2 ^ (bitLength n - 1) ≤ n ∧ n < 2 ^ bitLength n :=
  bitLengthAux_spec n n (Nat.le_refl n) h

/-- An integer of magnitude below `2^53` is a double. -/
theorem roundToDouble_of_small (n : Int) (h : n.natAbs < 2 ^ 53) :
    roundToDouble n = JSNumber.finite n := by
  simp only [roundToDouble, h, if_true]

/-- Rounding a magnitude of at least `2^53` leaves at least `2^53`. -/
theorem rounded_magnitude_ge (a m : Nat) (ha : 2 ^ 53 ≤ a)
    (hm : a / 2 ^ (bitLength a - 53) ≤ m) : 2 ^ 53 ≤ m * 2 ^ (bitLength a - 53) := by
  have h0 : a ≠ 0 := by
    intro h; rw [h] at ha; exact absurd ha (by norm_num)
  obtain ⟨hlo, hhi⟩ := bitLength_spec a h0
  have hbl : 53 < bitLength a := by
    have : (2 : Nat) ^ 53 < 2 ^ bitLength a := Nat.lt_of_le_of_lt ha hhi
    exact (Nat.pow_lt_pow_iff_right (by norm_num)).mp this
  obtain ⟨s, hs⟩ : ∃ s, bitLength a = s + 54 := ⟨bitLength a - 54, by omega⟩
  have hshift : bitLength a - 53 = s + 1 := by omega
  have hpred : bitLength a - 1 = 52 + (s + 1) := by omega
  rw [hshift] at hm ⊢
  rw [hpred, pow_add] at hlo
  have hq : 2 ^ 52 ≤ a / 2 ^ (s + 1) :=
    (Nat.le_div_iff_mul_le (Nat.pos_pow_of_pos _ (by norm_num))).mpr hlo
  have h1 : 2 ^ 52 * 2 ^ (s + 1) ≤ m * 2 ^ (s + 1) :=
    Nat.mul_le_mul_right _ (Nat.le_trans hq hm)
  have h2 : (2 : Nat) ^ 53 ≤ 2 ^ 52 * 2 ^ (s + 1) := by
    rw [← pow_add]
    exact Nat.pow_le_pow_right (by norm_num) (by omega)
  exact Nat.le_trans h2 h1

/-- The last step of the rounding: an infinity from `2^1024` on, and the rounded
magnitude with the sign otherwise. -/
theorem roundToDouble_tail (n : Int) (v : Nat) (hv : 2 ^ 53 ≤ v) :
    (if bitLength v > 1024 then JSNumber.infinity (decide (n < 0))
      else JSNumber.finite (if n < 0 then -(v : Int) else (v : Int))) =
        JSNumber.infinity (decide (n < 0)) ∨
    ∃ w : Nat, 2 ^ 53 ≤ w ∧
      (if bitLength v > 1024 then JSNumber.infinity (decide (n < 0))
        else JSNumber.finite (if n < 0 then -(v : Int) else (v : Int))) =
          JSNumber.finite (if n < 0 then -(w : Int) else (w : Int)) := by
  by_cases h : bitLength v > 1024
  · exact Or.inl (by simp only [h, if_true])
  · exact Or.inr ⟨v, hv, by simp only [h, if_false]⟩

/-- An integer of magnitude at least `2^53` rounds to an infinity of its sign or
to a double of its sign and of magnitude at least `2^53`. -/
theorem roundToDouble_of_large (n : Int) (h : 2 ^ 53 ≤ n.natAbs) :
    roundToDouble n = JSNumber.infinity (decide (n < 0)) ∨
    ∃ w : Nat, 2 ^ 53 ≤ w ∧
      roundToDouble n = JSNumber.finite (if n < 0 then -(w : Int) else (w : Int)) := by
  have hlt : ¬ n.natAbs < 2 ^ 53 := by omega
  unfold roundToDouble
  simp only [hlt, if_false]
  exact roundToDouble_tail n _ (rounded_magnitude_ge n.natAbs _ h (by split_ifs <;> simp))

/-- Rounding never gives `NaN`. -/
theorem isNaN_roundToDouble (n : Int) : isNaN (roundToDouble n) = false := by
  by_cases h : n.natAbs < 2 ^ 53
  · rw [roundToDouble_of_small n h]; rfl
  · rcases roundToDouble_of_large n (by omega) with h1 | ⟨w, _, h1⟩ <;> rw [h1] <;> rfl

theorem lt_finite_finite (a b : Int) :
    JSNumber.finite a < JSNumber.finite b ↔ a < b := by
  show JSNumber.lt _ _ = true ↔ _
  simp [JSNumber.lt]

theorem lt_finite_infinity (a : Int) (negative : Bool) :
    JSNumber.finite a < JSNumber.infinity negative ↔ negative = false := by
  show JSNumber.lt _ _ = true ↔ _
  simp [JSNumber.lt]

theorem lt_infinity_finite (negative : Bool) (b : Int) :
    JSNumber.infinity negative < JSNumber.finite b ↔ negative = true := by
  show JSNumber.lt _ _ = true ↔ _
  simp [JSNumber.lt]

/-- A value of at least `2^53`, or plus infinity, against bounds below `2^53`:
above the maximum and not below the minimum. -/
theorem validateNumberRange_of_large (input : Input) (min max : Int) (value : JSNumber)
    (hv : parseInt input.value = value)
    (hvalue : value = JSNumber.infinity false ∨ ∃ w : Int, 2 ^ 53 ≤ w ∧ value = JSNumber.finite w)
    (hmin : min < 2 ^ 53) (hmax : max < 2 ^ 53) :
    validateNumberRange input (JSNumber.finite min) (JSNumber.finite max) =
      ⟨false, "Value must not exceed " ++ (JSNumber.finite max).toString⟩ := by
  rcases hvalue with h | ⟨w, hw, h⟩
  · subst h
    simp [validateNumberRange, hv, isNaN, lt_finite_infinity, lt_infinity_finite, GT.gt]
  · subst h
    have h1 : ¬ w < min := by omega
    have h2 : max < w := by omega
    simp [validateNumberRange, hv, isNaN, lt_finite_finite, GT.gt, h1, h2]

/-- A value of at most `-2^53`, or minus infinity, against a minimum above
`-2^53`: below the minimum. -/
theorem validateNumberRange_of_small (input : Input) (min : Int) (max : JSNumber)
    (value : JSNumber) (hv : parseInt input.value = value)
    (hvalue : value = JSNumber.infinity true ∨ ∃ w : Int, w ≤ -(2 ^ 53) ∧ value = JSNumber.finite w)
    (hmin : -(2 ^ 53) < min) :
    validateNumberRange input (JSNumber.finite min) max =
      ⟨false, "Value must be at least " ++ (JSNumber.finite min).toString⟩ := by
  rcases hvalue with h | ⟨w, hw, h⟩
  · subst h
    simp [validateNumberRange, hv, isNaN, lt_infinity_finite]
  · subst h
    have h1 : w < min := by omega
    simp [validateNumberRange, hv, isNaN, lt_finite_finite, h1]

/-! ## Theorems on `validateFileUpload` -/

/-- C9: with no file in the input, `validateFileUpload` returns `valid = false`
with message `Please select a file`, for every allow-list and every size limit
(the function is total: a missing file is a result, not an exception). -/
theorem validateFileUpload_missing_file (toLowerCase : String → String)
    (allowedExtensions : List String) (maxSizeMB : Int) :
    validateFileUpload toLowerCase ⟨[]⟩ allowedExtensions maxSizeMB =
      ⟨false, "Please select a file"⟩ := by
  rfl

/-- C1: a present file whose lower-cased name ends in `.pdf`, `.doc` or `.docx`
and whose size is at most 50 MB (`50 * 1024 * 1024` bytes, boundary included)
is accepted by `validateFileUpload` with allow-list `pdf, doc, docx` and limit
50: `valid = true`, message `File is valid`. -/
theorem validateFileUpload_accepts (toLowerCase : String → String) (file : File)
    (others : List File)
    (hext : ∃ stem : String, toLowerCase file.name = stem ++ ".pdf" ∨
      toLowerCase file.name = stem ++ ".doc" ∨ toLowerCase file.name = stem ++ ".docx")
    (hsize : file.size ≤ 50 * 1024 * 1024) :
    validateFileUpload toLowerCase ⟨file :: others⟩ ["pdf", "doc", "docx"] 50 =
      ⟨true, "File is valid"⟩ := by
  have hinc : includes ["pdf", "doc", "docx"] (pop (split (toLowerCase file.name) '.')) = true := by
    obtain ⟨stem, h | h | h⟩ := hext
    · have := pop_split_after_dot stem "pdf" (by decide)
      have e : stem ++ ".pdf" = stem ++ "." ++ "pdf" := by
        rw [String.append_assoc]; rfl
      rw [h, e, this]; decide
    · have := pop_split_after_dot stem "doc" (by decide)
      have e : stem ++ ".doc" = stem ++ "." ++ "doc" := by
        rw [String.append_assoc]; rfl
      rw [h, e, this]; decide
    · have := pop_split_after_dot stem "docx" (by decide)
      have e : stem ++ ".docx" = stem ++ "." ++ "docx" := by
        rw [String.append_assoc]; rfl
      rw [h, e, this]; decide
  have hnot : ¬ ((file.size : ℚ) / (1024 * 1024) > ((50 : Int) : ℚ)) := by
    rw [fileSizeMB_gt_iff]; omega
  simp only [validateFileUpload, List.head?_cons, hinc, Bool.not_true, Bool.false_eq_true,
    if_false, hnot]

/-- Witness of C1: `Scan.DOCX` of exactly 50 MB. -/
theorem validateFileUpload_accepts_witness :
    (∃ stem : String, asciiToLowerCase "Scan.DOCX" = stem ++ ".pdf" ∨
      asciiToLowerCase "Scan.DOCX" = stem ++ ".doc" ∨
      asciiToLowerCase "Scan.DOCX" = stem ++ ".docx") ∧
    52428800 ≤ 50 * 1024 * 1024 ∧
    validateFileUpload asciiToLowerCase ⟨[⟨"Scan.DOCX", 52428800⟩]⟩ ["pdf", "doc", "docx"] 50 =
      ⟨true, "File is valid"⟩ :=
  ⟨⟨"scan", Or.inr (Or.inr (by decide))⟩, by decide,
    validateFileUpload_accepts asciiToLowerCase ⟨"Scan.DOCX", 52428800⟩ []
      ⟨"scan", Or.inr (Or.inr (by decide))⟩ (by decide)⟩

/-- C5: for a present file whose lower-cased name has a `.` and whose text
after the last `.` is not in `allowedExtensions`, `validateFileUpload` returns
`valid = false` with `Invalid file type. Allowed: ` followed by the allow-list
joined by `, ` (entries as given), whatever the size and the limit: the
extension check is reported before the size check. -/
theorem validateFileUpload_invalid_type (toLowerCase : String → String) (file : File)
    (others : List File) (allowedExtensions : List String) (maxSizeMB : Int)
    (stem ext : String) (hname : toLowerCase file.name = stem ++ "." ++ ext)
    (hdot : '.' ∉ ext.data) (hnot : ext ∉ allowedExtensions) :
    validateFileUpload toLowerCase ⟨file :: others⟩ allowedExtensions maxSizeMB =
      ⟨false, "Invalid file type. Allowed: " ++ ", ".intercalate allowedExtensions⟩ := by
  have hinc : includes allowedExtensions (pop (split (toLowerCase file.name) '.')) = false := by
    rw [hname, pop_split_after_dot stem ext hdot]
    simpa [includes] using hnot
  simp [validateFileUpload, hinc, join]

/-- Witness of C5: `setup.EXE` of 60 MB against `PDF, doc` with limit 50; the
message keeps the casing of the allow-list. -/
theorem validateFileUpload_invalid_type_witness :
    asciiToLowerCase "setup.EXE" = "setup" ++ "." ++ "exe" ∧ '.' ∉ "exe".data ∧
    "exe" ∉ ["PDF", "doc"] ∧ 50 * 1024 * 1024 < 62914560 ∧
    validateFileUpload asciiToLowerCase ⟨[⟨"setup.EXE", 62914560⟩]⟩ ["PDF", "doc"] 50 =
      ⟨false, "Invalid file type. Allowed: PDF, doc"⟩ :=
  ⟨by decide, by decide, by decide, by decide,
    validateFileUpload_invalid_type asciiToLowerCase ⟨"setup.EXE", 62914560⟩ [] ["PDF", "doc"] 50
      "setup" "exe" (by decide) (by decide) (by decide)⟩

/-- The number `toFixed1` prints for a non-negative argument: the integer
nearest to ten times the argument, the upper one at a tie. -/
theorem toFixed1_nonneg (x : ℚ) (hx : 0 ≤ x) :
    ∃ n : Nat, ((n : ℚ) - 1 / 2 ≤ 10 * x ∧ 10 * x < (n : ℚ) + 1 / 2) ∧
      toFixed1 x = toString (n / 10) ++ "." ++ toString (n % 10) := by
  have hy : (0 : ℚ) ≤ x * 10 + 1 / 2 := by linarith
  have hfl : (0 : Int) ≤ ⌊x * 10 + 1 / 2⌋ := Int.floor_nonneg.mpr hy
  refine ⟨⌊x * 10 + 1 / 2⌋.toNat, ⟨?_, ?_⟩, ?_⟩
  · have h1 : ((⌊x * 10 + 1 / 2⌋ : Int) : ℚ) ≤ x * 10 + 1 / 2 := Int.floor_le _
    have h2 : ((⌊x * 10 + 1 / 2⌋.toNat : Nat) : ℚ) = ((⌊x * 10 + 1 / 2⌋ : Int) : ℚ) := by
      have : ((⌊x * 10 + 1 / 2⌋.toNat : Nat) : Int) = ⌊x * 10 + 1 / 2⌋ := Int.toNat_of_nonneg hfl
      exact_mod_cast this
    rw [h2]; linarith
  · have h1 : x * 10 + 1 / 2 < ((⌊x * 10 + 1 / 2⌋ : Int) : ℚ) + 1 := Int.lt_floor_add_one _
    have h2 : ((⌊x * 10 + 1 / 2⌋.toNat : Nat) : ℚ) = ((⌊x * 10 + 1 / 2⌋ : Int) : ℚ) := by
      have : ((⌊x * 10 + 1 / 2⌋.toNat : Nat) : Int) = ⌊x * 10 + 1 / 2⌋ := Int.toNat_of_nonneg hfl
      exact_mod_cast this
    rw [h2]; linarith
  · have hneg : ¬ x < 0 := not_lt.mpr hx
    simp [toFixed1, hneg]

/-- C6: for a present file with an allowed extension and more than
`maxSizeMB * 1024 * 1024` bytes, `validateFileUpload` returns `valid = false`
with `File size (<s>MB) exceeds <maxSizeMB>MB limit`, where `<s>` is
`bytes / 1048576` rounded to one decimal: with `n` the integer nearest to
`10 * bytes / 1048576` (the upper one at a tie), `<s>` is `n / 10`, a point and
the one digit `n % 10`. -/
theorem validateFileUpload_too_large (toLowerCase : String → String) (file : File)
    (others : List File) (allowedExtensions : List String) (maxSizeMB : Int) (ext : String)
    (hext : pop (split (toLowerCase file.name) '.') = some ext)
    (hmem : ext ∈ allowedExtensions)
    (hsize : maxSizeMB * 1024 * 1024 < (file.size : Int)) :
    ∃ n : Nat,
      ((n : ℚ) - 1 / 2 ≤ 10 * ((file.size : ℚ) / 1048576) ∧
        10 * ((file.size : ℚ) / 1048576) < (n : ℚ) + 1 / 2) ∧
      validateFileUpload toLowerCase ⟨file :: others⟩ allowedExtensions maxSizeMB =
        ⟨false, "File size (" ++ (toString (n / 10) ++ "." ++ toString (n % 10)) ++
          "MB) exceeds " ++ toString maxSizeMB ++ "MB limit"⟩ := by
  have hinc : includes allowedExtensions (pop (split (toLowerCase file.name) '.')) = true := by
    rw [hext]; simpa [includes] using hmem
  have hgt : (file.size : ℚ) / (1024 * 1024) > (maxSizeMB : ℚ) :=
    (fileSizeMB_gt_iff file.size maxSizeMB).mpr hsize
  have hnn : (0 : ℚ) ≤ (file.size : ℚ) / (1024 * 1024) := by positivity
  obtain ⟨n, hn, hfix⟩ := toFixed1_nonneg _ hnn
  have e : ((1024 : ℚ) * 1024) = 1048576 := by norm_num
  refine ⟨n, by rw [← e]; exact hn, ?_⟩
  simp only [validateFileUpload, List.head?_cons, hinc, Bool.not_true, Bool.false_eq_true,
    if_false, hgt, if_true, hfix, numberToString]

/-- Witness of C6: 52,428,801 bytes against the limit 50 are reported as
`50.0MB`. -/
theorem validateFileUpload_too_large_witness :
    pop (split (asciiToLowerCase "a.pdf") '.') = some "pdf" ∧ "pdf" ∈ ["pdf", "doc", "docx"] ∧
    (50 : Int) * 1024 * 1024 < ((52428801 : Nat) : Int) ∧
    (∃ n : Nat,
      ((n : ℚ) - 1 / 2 ≤ 10 * (((52428801 : Nat) : ℚ) / 1048576) ∧
        10 * (((52428801 : Nat) : ℚ) / 1048576) < (n : ℚ) + 1 / 2) ∧
      validateFileUpload asciiToLowerCase ⟨[⟨"a.pdf", 52428801⟩]⟩ ["pdf", "doc", "docx"] 50 =
        ⟨false, "File size (" ++ (toString (n / 10) ++ "." ++ toString (n % 10)) ++
          "MB) exceeds " ++ toString (50 : Int) ++ "MB limit"⟩) ∧
    validateFileUpload asciiToLowerCase ⟨[⟨"a.pdf", 52428801⟩]⟩ ["pdf", "doc", "docx"] 50 =
      ⟨false, "File size (50.0MB) exceeds 50MB limit"⟩ :=
  ⟨by decide, by decide, by decide,
    validateFileUpload_too_large asciiToLowerCase ⟨"a.pdf", 52428801⟩ [] ["pdf", "doc", "docx"] 50
      "pdf" (by decide) (by decide) (by decide),
    by decide!⟩

/-- C2, refuted as stated: the name `pdf` has no `.`, the allow-list
`pdf, doc, docx` does not contain the empty string, and yet the extension
`validateFileUpload` extracts is `pdf`, not the empty string, and the file is
accepted. -/
theorem validateFileUpload_dotless_counterexample :
    '.' ∉ "pdf".data ∧ "" ∉ ["pdf", "doc", "docx"] ∧
    pop (split (asciiToLowerCase "pdf") '.') = some "pdf" ∧
    validateFileUpload asciiToLowerCase ⟨[⟨"pdf", 1024⟩]⟩ ["pdf", "doc", "docx"] 50 =
      ⟨true, "File is valid"⟩ := by
  refine ⟨by decide, by decide, by decide, ?_⟩
  have hinc : includes ["pdf", "doc", "docx"] (pop (split (asciiToLowerCase "pdf") '.')) = true := by
    decide
  have hnot : ¬ (((1024 : Nat) : ℚ) / (1024 * 1024) > ((50 : Int) : ℚ)) := by
    rw [fileSizeMB_gt_iff]; decide
  simp only [validateFileUpload, List.head?_cons, hinc, Bool.not_true, Bool.false_eq_true,
    if_false, hnot]

/-- C2, amended: the extension `validateFileUpload` extracts is the text after
the last `.` of the lower-cased name, and the whole lower-cased name when that
has no `.`.  So a present file whose lower-cased name has no `.` gets the
invalid-file-type result when the whole lower-cased name is not in the
allow-list, and passes the extension check when it is (it is then accepted if
its size is within the limit). -/
theorem validateFileUpload_extension (toLowerCase : String → String) (file : File)
    (others : List File) (allowedExtensions : List String) (maxSizeMB : Int)
    (hdot : '.' ∉ (toLowerCase file.name).data) :
    (∀ stem ext : String, '.' ∉ ext.data → pop (split (stem ++ "." ++ ext) '.') = some ext) ∧
    pop (split (toLowerCase file.name) '.') = some (toLowerCase file.name) ∧
    (toLowerCase file.name ∉ allowedExtensions →
      validateFileUpload toLowerCase ⟨file :: others⟩ allowedExtensions maxSizeMB =
        ⟨false, "Invalid file type. Allowed: " ++ ", ".intercalate allowedExtensions⟩) ∧
    (toLowerCase file.name ∈ allowedExtensions →
      (file.size : Int) ≤ maxSizeMB * 1024 * 1024 →
      validateFileUpload toLowerCase ⟨file :: others⟩ allowedExtensions maxSizeMB =
        ⟨true, "File is valid"⟩) := by
  have hpop := pop_split_no_dot (toLowerCase file.name) hdot
  refine ⟨fun stem ext h => pop_split_after_dot stem ext h, hpop, ?_, ?_⟩
  · intro hnot
    have hinc : includes allowedExtensions (pop (split (toLowerCase file.name) '.')) = false := by
      rw [hpop]; simpa [includes] using hnot
    simp [validateFileUpload, hinc, join]
  · intro hmem hsize
    have hinc : includes allowedExtensions (pop (split (toLowerCase file.name) '.')) = true := by
      rw [hpop]; simpa [includes] using hmem
    have hnot : ¬ ((file.size : ℚ) / (1024 * 1024) > (maxSizeMB : ℚ)) := by
      rw [fileSizeMB_gt_iff]; omega
    simp only [validateFileUpload, List.head?_cons, hinc, Bool.not_true, Bool.false_eq_true,
      if_false, hnot]

/-- Witness of the amended C2: the name `README` has no `.`; its extension is
`readme`, which the allow-list `pdf, doc, docx` does not contain. -/
theorem validateFileUpload_extension_witness :
    '.' ∉ (asciiToLowerCase "README").data ∧
    pop (split (asciiToLowerCase "README") '.') = some "readme" ∧
    validateFileUpload asciiToLowerCase ⟨[⟨"README", 10⟩]⟩ ["pdf", "doc", "docx"] 50 =
      ⟨false, "Invalid file type. Allowed: pdf, doc, docx"⟩ :=
  ⟨by decide,
    (validateFileUpload_extension asciiToLowerCase ⟨"README", 10⟩ [] ["pdf", "doc", "docx"] 50
      (by decide)).2.1,
    (validateFileUpload_extension asciiToLowerCase ⟨"README", 10⟩ [] ["pdf", "doc", "docx"] 50
      (by decide)).2.2.1 (by decide)⟩

/-! ## Theorems on `validateNumberRange` -/

/-- C3, refuted as stated: `0xff` is the digit run `0` followed by `x`, which is
not a decimal digit, and `parseInt` reads it as hexadecimal 255, not as 0; with
bounds 200 and 300 `validateNumberRange` accepts `0xff` while it rejects `0`. -/
theorem validateNumberRange_hex_counterexample :
    isDecimalDigit '0' = true ∧ isDecimalDigit 'x' = false ∧
    parseInt "0xff" = 255 ∧ parseInt "0" = 0 ∧
    validateNumberRange ⟨"0xff"⟩ 200 300 = ⟨true, "Valid"⟩ ∧
    validateNumberRange ⟨"0"⟩ 200 300 = ⟨false, "Value must be at least 200"⟩ ∧
    validateNumberRange ⟨"0xff"⟩ 200 300 ≠ validateNumberRange ⟨"0"⟩ 200 300 := by
  decide

/-- C3, amended: for a non-empty run `d` of decimal digits followed by a
character `c` that is not a decimal digit and any further text, where not both
`d` is `0` and `c` is `x` or `X`, `validateNumberRange` returns on the whole
text what it returns on `d`, for all bounds: both are read as the value of `d`
in radix 10.  When `d` is `0` and `c` is `x` or `X`, `parseInt` reads the
hexadecimal digits that follow the marker instead, and gives `NaN` when none
follows. -/
theorem validateNumberRange_trailing_text (d : List Char) (c : Char) (rest : List Char)
    (min max : JSNumber) (hne : d ≠ []) (hd : ∀ ch ∈ d, isDecimalDigit ch = true)
    (hc : isDecimalDigit c = false) :
    (¬ (d = ['0'] ∧ (c = 'x' ∨ c = 'X')) →
      parseInt (String.mk (d ++ c :: rest)) = roundToDouble ((mathInt 10 d : Nat) : Int) ∧
      validateNumberRange ⟨String.mk (d ++ c :: rest)⟩ min max =
        validateNumberRange ⟨String.mk d⟩ min max) ∧
    (d = ['0'] ∧ (c = 'x' ∨ c = 'X') →
      parseInt (String.mk (d ++ c :: rest)) =
        if (rest.takeWhile (isRadixDigit 16)).isEmpty then JSNumber.nan
        else roundToDouble ((mathInt 16 (rest.takeWhile (isRadixDigit 16)) : Nat) : Int)) := by
  constructor
  · intro hhex
    have h1 : parseInt (String.mk (d ++ c :: rest)) =
        roundToDouble ((mathInt 10 d : Nat) : Int) := by
      apply parseInt_digits d (c :: rest) hne hd
      · intro c2 tl h
        injection h with h1 _
        rw [← h1]; exact hc
      · rintro ⟨h0, c2, tl, h, hx⟩
        injection h with h1 _
        exact hhex ⟨h0, by rw [h1]; exact hx⟩
    have h2 : parseInt (String.mk d) = roundToDouble ((mathInt 10 d : Nat) : Int) := by
      have := parseInt_digits d [] hne hd (by simp) (by simp)
      rwa [List.append_nil] at this
    exact ⟨h1, by simp only [validateNumberRange, h1, h2]⟩
  · rintro ⟨h0, hx⟩
    subst h0
    exact parseInt_hex c rest hx

/-- Witness of the amended C3: `5abc` is treated as `5`, and `0x1f` as
hexadecimal 31. -/
theorem validateNumberRange_trailing_text_witness :
    (['5'] : List Char) ≠ [] ∧ (∀ ch ∈ ['5'], isDecimalDigit ch = true) ∧
    isDecimalDigit 'a' = false ∧ ¬ (['5'] = ['0'] ∧ ('a' = 'x' ∨ 'a' = 'X')) ∧
    parseInt "5abc" = 5 ∧
    validateNumberRange ⟨"5abc"⟩ 1 1000 = validateNumberRange ⟨"5"⟩ 1 1000 ∧
    parseInt "0x1f" = 31 :=
  ⟨by decide, by decide, by decide, by decide,
    ((validateNumberRange_trailing_text ['5'] 'a' ['b', 'c'] 1 1000 (by decide) (by decide)
      (by decide)).1 (by decide)).1,
    ((validateNumberRange_trailing_text ['5'] 'a' ['b', 'c'] 1 1000 (by decide) (by decide)
      (by decide)).1 (by decide)).2,
    (validateNumberRange_trailing_text ['0'] 'x' ['1', 'f'] 1 1000 (by decide) (by decide)
      (by decide)).2 (by decide)⟩

/-- C4, refuted as stated: the decimal text of the integer `2^53 + 1` is read as
the double `2^53`, so with both bounds `2^53` `validateNumberRange` returns
`Valid` although `2^53 + 1` is above the maximum. -/
theorem validateNumberRange_rounding_counterexample :
    toString (9007199254740993 : Int) = "9007199254740993" ∧
    parseInt "9007199254740993" = JSNumber.finite 9007199254740992 ∧
    validateNumberRange ⟨toString (9007199254740993 : Int)⟩
      (JSNumber.finite 9007199254740992) (JSNumber.finite 9007199254740992) =
        ⟨true, "Valid"⟩ ∧
    ¬ ((9007199254740992 : Int) ≤ 9007199254740993 ∧
      (9007199254740993 : Int) ≤ 9007199254740992) := by
  decide

/-- C4, amended: for every integer `v` and all integer bounds `min` and `max`
of magnitude below `2^53`, `validateNumberRange` on the decimal text of `v`
returns `valid = true`, with message `Valid`, if and only if `min ≤ v ≤ max`. -/
theorem validateNumberRange_valid_iff_of_safe (v min max : Int)
    (hmin : -(2 ^ 53) < min ∧ min < 2 ^ 53) (hmax : -(2 ^ 53) < max ∧ max < 2 ^ 53) :
    ((validateNumberRange ⟨toString v⟩ (JSNumber.finite min) (JSNumber.finite max)).valid = true ↔
      min ≤ v ∧ v ≤ max) ∧
    (validateNumberRange ⟨toString v⟩ (JSNumber.finite min) (JSNumber.finite max) =
      ⟨true, "Valid"⟩ ↔ min ≤ v ∧ v ≤ max) := by
  have hp : parseInt (toString v) = roundToDouble v := parseInt_toString v
  by_cases hsmall : v.natAbs < 2 ^ 53
  · have hr := roundToDouble_of_small v hsmall
    simp only [validateNumberRange, hp, hr, isNaN, Bool.false_eq_true, if_false,
      lt_finite_finite, GT.gt]
    by_cases h1 : v < min
    · simp only [h1, if_true]
      constructor
      · constructor
        · intro h; exact absurd h (by simp)
        · intro h; omega
      · constructor
        · intro h; exact absurd (congrArg ValidationResult.valid h) (by simp)
        · intro h; omega
    · by_cases h2 : max < v
      · simp only [h1, h2, if_true, if_false]
        constructor
        · constructor
          · intro h; exact absurd h (by simp)
          · intro h; omega
        · constructor
          · intro h; exact absurd (congrArg ValidationResult.valid h) (by simp)
          · intro h; omega
      · simp only [h1, h2, if_false]
        constructor
        · constructor
          · intro _; omega
          · intro _; trivial
        · constructor
          · intro _; omega
          · intro _; trivial
  · have hlarge : 2 ^ 53 ≤ v.natAbs := by omega
    by_cases hneg : v < 0
    · have hres := validateNumberRange_of_small ⟨toString v⟩ min (JSNumber.finite max)
        (roundToDouble v) hp
        (by
          rcases roundToDouble_of_large v hlarge with h | ⟨w, hw, h⟩
          · left; rw [h]; simp [hneg]
          · right
            refine ⟨-(w : Int), ?_, ?_⟩
            · have : ((2 ^ 53 : Nat) : Int) ≤ (w : Int) := by exact_mod_cast hw
              push_cast at this
              omega
            · rw [h]; simp [hneg])
        hmin.1
      rw [hres]
      constructor
      · constructor
        · intro h; exact absurd h (by simp)
        · intro h; omega
      · constructor
        · intro h; exact absurd (congrArg ValidationResult.valid h) (by simp)
        · intro h; omega
    · have hres := validateNumberRange_of_large ⟨toString v⟩ min max (roundToDouble v) hp
        (by
          rcases roundToDouble_of_large v hlarge with h | ⟨w, hw, h⟩
          · left; rw [h]; simp [hneg]
          · right
            refine ⟨(w : Int), ?_, ?_⟩
            · have : ((2 ^ 53 : Nat) : Int) ≤ (w : Int) := by exact_mod_cast hw
              push_cast at this
              omega
            · rw [h]; simp [hneg])
        hmin.2 hmax.2
      rw [hres]
      constructor
      · constructor
        · intro h; exact absurd h (by simp)
        · intro h; omega
      · constructor
        · intro h; exact absurd (congrArg ValidationResult.valid h) (by simp)
        · intro h; omega

/-- Witness of the amended C4: the text of `2^53 + 1` against the bounds 1 and
1000 is rejected, as `2^53 + 1` is above 1000, and the text of 7 is accepted. -/
theorem validateNumberRange_valid_iff_of_safe_witness :
    (-(2 ^ 53) < (1 : Int) ∧ (1 : Int) < 2 ^ 53) ∧
    (-(2 ^ 53) < (1000 : Int) ∧ (1000 : Int) < 2 ^ 53) ∧
    ((validateNumberRange ⟨toString (9007199254740993 : Int)⟩ (JSNumber.finite 1)
      (JSNumber.finite 1000)).valid = true ↔
        (1 : Int) ≤ 9007199254740993 ∧ (9007199254740993 : Int) ≤ 1000) ∧
    (validateNumberRange ⟨toString (7 : Int)⟩ (JSNumber.finite 1) (JSNumber.finite 1000) =
      ⟨true, "Valid"⟩ ↔ (1 : Int) ≤ 7 ∧ (7 : Int) ≤ 1000) :=
  ⟨by decide, by decide,
    (validateNumberRange_valid_iff_of_safe 9007199254740993 1 1000 (by decide) (by decide)).1,
    (validateNumberRange_valid_iff_of_safe 7 1 1000 (by decide) (by decide)).2⟩

/-- C7: `validateNumberRange` reports the first failing check in the order
not-a-number, below minimum, above maximum, for all bounds that are numbers of
the program.  Text that does not parse gets `Please enter a valid number`, and
text that is empty or does not start, after white space, with an optional sign
and a digit does not parse; a parsed value below `min` gets
`Value must be at least <min>`, also when it is above `max`; a parsed value not
below `min` and above `max` gets `Value must not exceed <max>`; the bound is
written as a template literal writes it. -/
theorem validateNumberRange_order (input : Input) (min max : JSNumber) :
    (isNaN (parseInt input.value) = true →
      validateNumberRange input min max = ⟨false, "Please enter a valid number"⟩) ∧
    (startsWithNumber input.value = false → isNaN (parseInt input.value) = true) ∧
    (min.isDouble = true → isNaN (parseInt input.value) = false →
      parseInt input.value < min →
      validateNumberRange input min max =
        ⟨false, "Value must be at least " ++ min.toString⟩) ∧
    (min.isDouble = true → max.isDouble = true → isNaN (parseInt input.value) = false →
      ¬ parseInt input.value < min → parseInt input.value > max →
      validateNumberRange input min max =
        ⟨false, "Value must not exceed " ++ max.toString⟩) := by
  refine ⟨?_, ?_, ?_, ?_⟩
  · intro h; simp only [validateNumberRange, h, if_true]
  · intro h; rw [parseInt_of_not_startsWithNumber input.value h]; rfl
  · intro _ hn hlt
    simp only [validateNumberRange, hn, hlt, Bool.false_eq_true, if_true, if_false]
  · intro _ _ hn hge hgt
    simp only [validateNumberRange, hn, hge, hgt, Bool.false_eq_true, if_true, if_false]

/-- Witness of C7: `abc` and the empty text against any bounds; `7` against the
crossed bounds 10 and 5 (below the minimum and above the maximum); `7` against
1 and 5; `5` against a minimum of `10^21`, which is written `1e+21`; the text of
`2^53 + 1`, read as `2^53`, against a maximum of `2^53 - 1`; and minus infinity
and infinity as bounds, which let a parsed value pass. -/
theorem validateNumberRange_order_witness :
    validateNumberRange ⟨"abc"⟩ 1 1000 = ⟨false, "Please enter a valid number"⟩ ∧
    isNaN (parseInt "") = true ∧
    validateNumberRange ⟨"7"⟩ 10 5 = ⟨false, "Value must be at least 10"⟩ ∧
    validateNumberRange ⟨"7"⟩ 1 5 = ⟨false, "Value must not exceed 5"⟩ ∧
    validateNumberRange ⟨"5"⟩ 1000000000000000000000 2000000000000000000000 =
      ⟨false, "Value must be at least 1e+21"⟩ ∧
    validateNumberRange ⟨"9007199254740993"⟩ 1 9007199254740991 =
      ⟨false, "Value must not exceed 9007199254740991"⟩ ∧
    validateNumberRange ⟨"7"⟩ (JSNumber.infinity true) (JSNumber.infinity false) =
      ⟨true, "Valid"⟩ :=
  ⟨(validateNumberRange_order ⟨"abc"⟩ 1 1000).1 (by decide),
    (validateNumberRange_order ⟨""⟩ 0 0).2.1 (by decide),
    (validateNumberRange_order ⟨"7"⟩ 10 5).2.2.1 (by decide) (by decide) (by decide),
    (validateNumberRange_order ⟨"7"⟩ 1 5).2.2.2 (by decide) (by decide) (by decide) (by decide)
      (by decide),
    (validateNumberRange_order ⟨"5"⟩ 1000000000000000000000 2000000000000000000000).2.2.1
      (by decide) (by decide) (by decide),
    (validateNumberRange_order ⟨"9007199254740993"⟩ 1 9007199254740991).2.2.2
      (by decide) (by decide) (by decide) (by decide) (by decide),
    by decide⟩

/-! ## Theorems on `validatePrintRequestForm` and on the total -/

/-- C8: for every form, `validatePrintRequestForm` returns `valid` equal to the
conjunction of the validities of `validateFileUpload(file, [pdf, doc, docx], 50)`,
`validateNumberRange(pages, 1, 1000)` and `validateNumberRange(copies, 1, 100)`
over the fields that are present, and `errors` equal to the messages of the
failing fields in the order file, pages, copies; so `valid = true` exactly when
`errors` is empty.  Pages `0` and copies `200` without a file field give
`valid = false` and the two messages `Value must be at least 1` and
`Value must not exceed 100`. -/
theorem validatePrintRequestForm_aggregate (toLowerCase : String → String) (form : Form) :
    (validatePrintRequestForm toLowerCase form).valid =
      (fieldValid (form.file.map fun i =>
          validateFileUpload toLowerCase i ["pdf", "doc", "docx"] 50) &&
        fieldValid (form.number_of_pages.map fun i => validateNumberRange i 1 1000) &&
        fieldValid (form.number_of_copies.map fun i => validateNumberRange i 1 100)) ∧
    (validatePrintRequestForm toLowerCase form).errors =
      fieldErrors (form.file.map fun i =>
          validateFileUpload toLowerCase i ["pdf", "doc", "docx"] 50) ++
        fieldErrors (form.number_of_pages.map fun i => validateNumberRange i 1 1000) ++
        fieldErrors (form.number_of_copies.map fun i => validateNumberRange i 1 100) ∧
    ((validatePrintRequestForm toLowerCase form).valid = true ↔
      (validatePrintRequestForm toLowerCase form).errors = []) ∧
    validatePrintRequestForm toLowerCase ⟨none, some ⟨"0"⟩, some ⟨"200"⟩⟩ =
      ⟨false, ["Value must be at least 1", "Value must not exceed 100"]⟩ := by
  refine ⟨?_, ?_, ?_, rfl⟩
  all_goals
    rcases form with ⟨_ | f, _ | p, _ | c⟩ <;>
    simp only [validatePrintRequestForm, fieldValid, fieldErrors, Option.map_none',
      Option.map_some'] <;>
    (try cases (validateFileUpload toLowerCase f ["pdf", "doc", "docx"] 50).valid) <;>
    (try cases (validateNumberRange p 1 1000).valid) <;>
    (try cases (validateNumberRange c 1 100).valid) <;>
    simp

/-- The fallback `|| 0`: the number itself, and 0 for `NaN`. -/
theorem orZero_eq (x : JSNumber) : orZero x = if isNaN x = true then 0 else x := by
  cases x with
  | nan => rfl
  | infinity negative => rfl
  | finite v =>
    by_cases h : v = 0
    · subst h; decide
    · simp [orZero, isNaN, h]

/-- With a positive product `calculateTotalPages` shows the display with the
product in its text. -/
theorem calculateTotalPages_of_pos (pagesInput copiesInput : Input) (el : Display)
    (h : orZero (parseInt pagesInput.value) * orZero (parseInt copiesInput.value) > 0) :
    calculateTotalPages pagesInput copiesInput (some el) =
      some ⟨"block", Content.text ("Total pages to print: " ++
        (orZero (parseInt pagesInput.value) * orZero (parseInt copiesInput.value)).toString)⟩ := by
  simp only [calculateTotalPages, h, if_true]

/-- With a product that is not positive `calculateTotalPages` changes nothing:
a display that is shown stays shown. -/
theorem calculateTotalPages_of_not_pos (pagesInput copiesInput : Input)
    (displayElement : Option Display)
    (h : ¬ orZero (parseInt pagesInput.value) * orZero (parseInt copiesInput.value) > 0) :
    calculateTotalPages pagesInput copiesInput displayElement = displayElement := by
  cases displayElement with
  | none => rfl
  | some el => simp only [calculateTotalPages, h, if_false]

/-- With a product that is not positive `updateTotal` hides the display. -/
theorem updateTotal_of_not_pos (pagesInput copiesInput : Input) (totalDisplay : Display)
    (h : ¬ orZero (parseInt pagesInput.value) * orZero (parseInt copiesInput.value) > 0) :
    updateTotal pagesInput copiesInput totalDisplay = some ⟨"none", totalDisplay.content⟩ := by
  simp only [updateTotal, h, if_false]

/-- With a positive product `updateTotal` writes the product into the `strong`
element and shows the display. -/
theorem updateTotal_of_pos (pagesInput copiesInput : Input) (shown : String) (old : String)
    (h : orZero (parseInt pagesInput.value) * orZero (parseInt copiesInput.value) > 0) :
    updateTotal pagesInput copiesInput ⟨shown, Content.markup (some old)⟩ =
      some ⟨"block", Content.markup (some
        (orZero (parseInt pagesInput.value) * orZero (parseInt copiesInput.value)).toString)⟩ := by
  simp only [updateTotal, h, if_true]

/-- C10, the failing input run on the code: with the total display showing 15
after pages `5` and copies `3`, pages `0` gives the total 0 and
`calculateTotalPages` leaves the display as it was, still shown with the text
for 15, whereas `updateTotal` hides it. -/
theorem calculateTotalPages_leaves_display :
    calculateTotalPages ⟨"5"⟩ ⟨"3"⟩ (some ⟨"none", Content.markup (some "")⟩) =
      some ⟨"block", Content.text "Total pages to print: 15"⟩ ∧
    orZero (parseInt "0") * orZero (parseInt "3") = 0 ∧
    calculateTotalPages ⟨"0"⟩ ⟨"3"⟩ (some ⟨"block", Content.text "Total pages to print: 15"⟩) =
      some ⟨"block", Content.text "Total pages to print: 15"⟩ ∧
    updateTotal ⟨"5"⟩ ⟨"3"⟩ ⟨"none", Content.markup (some "")⟩ =
      some ⟨"block", Content.markup (some "15")⟩ ∧
    updateTotal ⟨"0"⟩ ⟨"3"⟩ ⟨"block", Content.markup (some "15")⟩ =
      some ⟨"none", Content.markup (some "15")⟩ := by
  decide

/-! ## Only the first file is validated -/

/-- C11: the results of `validateFileUpload` and of `validatePrintRequestForm`
depend only on the first file of the file input.  Two file lists whose first
files have the same name and size get the same result from both functions,
whatever the other files, the allow-list, the limit and the other fields are.
So a selection of up to ten files, which the `change` handler keeps as it is
and reports as uploaded, gets the result of its first file alone: it is
reported valid whenever the first file is valid, whatever the later files are. -/
theorem validateFileUpload_first_file_only (toLowerCase : String → String)
    (first1 first2 : File) (later1 later2 : List File) (allowedExtensions : List String)
    (maxSizeMB : Int) (pages copies : Option Input)
    (hname : first1.name = first2.name) (hsize : first1.size = first2.size) :
    validateFileUpload toLowerCase ⟨first1 :: later1⟩ allowedExtensions maxSizeMB =
      validateFileUpload toLowerCase ⟨first2 :: later2⟩ allowedExtensions maxSizeMB ∧
    validatePrintRequestForm toLowerCase ⟨some ⟨first1 :: later1⟩, pages, copies⟩ =
      validatePrintRequestForm toLowerCase ⟨some ⟨first2 :: later2⟩, pages, copies⟩ ∧
    ((first1 :: later1).length ≤ 10 →
      fileInputChange ⟨first1 :: later1⟩ =
        ⟨first1 :: later1, some (toString (first1 :: later1).length ++ " file" ++
          (if (first1 :: later1).length > 1 then "s" else "") ++
          " uploaded successfully!", "success")⟩ ∧
      validateFileUpload toLowerCase ⟨(fileInputChange ⟨first1 :: later1⟩).files⟩
          allowedExtensions maxSizeMB =
        validateFileUpload toLowerCase ⟨[first1]⟩ allowedExtensions maxSizeMB ∧
      validatePrintRequestForm toLowerCase
          ⟨some ⟨(fileInputChange ⟨first1 :: later1⟩).files⟩, pages, copies⟩ =
        validatePrintRequestForm toLowerCase ⟨some ⟨[first1]⟩, pages, copies⟩) := by
  have hfile : first1 = first2 := by
    cases first1; cases first2; simp only [File.mk.injEq]; exact ⟨hname, hsize⟩
  subst hfile
  have hupload : ∀ (xs ys : List File) (allowed : List String) (m : Int),
      validateFileUpload toLowerCase ⟨first1 :: xs⟩ allowed m =
        validateFileUpload toLowerCase ⟨first1 :: ys⟩ allowed m := by
    intro xs ys allowed m
    simp only [validateFileUpload, List.head?_cons]
  have hform : ∀ xs ys : List File,
      validatePrintRequestForm toLowerCase ⟨some ⟨first1 :: xs⟩, pages, copies⟩ =
        validatePrintRequestForm toLowerCase ⟨some ⟨first1 :: ys⟩, pages, copies⟩ := by
    intro xs ys
    simp only [validatePrintRequestForm, hupload xs ys]
  refine ⟨hupload later1 later2 allowedExtensions maxSizeMB, hform later1 later2, ?_⟩
  intro hlen
  have hkeep : fileInputChange ⟨first1 :: later1⟩ =
      ⟨first1 :: later1, some (toString (first1 :: later1).length ++ " file" ++
        (if (first1 :: later1).length > 1 then "s" else "") ++
        " uploaded successfully!", "success")⟩ := by
    have h1 : ¬ (first1 :: later1).length > 10 := by omega
    have h2 : (first1 :: later1).length > 0 := by simp
    simp only [fileInputChange, h1, h2, if_true, if_false]
  refine ⟨hkeep, ?_, ?_⟩
  · rw [hkeep]; exact hupload later1 [] allowedExtensions maxSizeMB
  · rw [hkeep]; exact hform later1 []

/-- Witness of C11: `notes.pdf` of 1 KB followed by `setup.exe` of 100 MB.  The
handler reports two files as uploaded, and both functions report the selection
valid, as they do for `notes.pdf` alone. -/
theorem validateFileUpload_first_file_only_witness :
    (⟨"notes.pdf", 1024⟩ : File).name = (⟨"notes.pdf", 1024⟩ : File).name ∧
    (⟨"notes.pdf", 1024⟩ : File).size = (⟨"notes.pdf", 1024⟩ : File).size ∧
    [(⟨"notes.pdf", 1024⟩ : File), ⟨"setup.exe", 104857600⟩].length ≤ 10 ∧
    validateFileUpload asciiToLowerCase ⟨[⟨"setup.exe", 104857600⟩]⟩ ["pdf", "doc", "docx"] 50 =
      ⟨false, "Invalid file type. Allowed: pdf, doc, docx"⟩ ∧
    fileInputChange ⟨[⟨"notes.pdf", 1024⟩, ⟨"setup.exe", 104857600⟩]⟩ =
      ⟨[⟨"notes.pdf", 1024⟩, ⟨"setup.exe", 104857600⟩],
        some ("2 files uploaded successfully!", "success")⟩ ∧
    validateFileUpload asciiToLowerCase ⟨[⟨"notes.pdf", 1024⟩, ⟨"setup.exe", 104857600⟩]⟩
        ["pdf", "doc", "docx"] 50 =
      validateFileUpload asciiToLowerCase ⟨[⟨"notes.pdf", 1024⟩]⟩ ["pdf", "doc", "docx"] 50 ∧
    validateFileUpload asciiToLowerCase ⟨[⟨"notes.pdf", 1024⟩, ⟨"setup.exe", 104857600⟩]⟩
        ["pdf", "doc", "docx"] 50 = ⟨true, "File is valid"⟩ ∧
    validatePrintRequestForm asciiToLowerCase
        ⟨some ⟨[⟨"notes.pdf", 1024⟩, ⟨"setup.exe", 104857600⟩]⟩, some ⟨"5"⟩, some ⟨"3"⟩⟩ =
      ⟨true, []⟩ :=
  ⟨rfl, rfl, by decide, by decide, by decide,
    (validateFileUpload_first_file_only asciiToLowerCase ⟨"notes.pdf", 1024⟩ ⟨"notes.pdf", 1024⟩
      [⟨"setup.exe", 104857600⟩] [] ["pdf", "doc", "docx"] 50 none none rfl rfl).1,
    by decide!, by decide!⟩

end PrintRequest
